import Mathlib

/-!
Verification of the fupan (trading-review check-in) plugin, a shallow
embedding of `src/main.py`.

Modelling conventions:
* A calendar date is an `Int` day number (calendar-date granularity; two
  dates are consecutive calendar days iff they differ by 1).
* A `datetime` instant is a `DateTime`: a day number plus minutes since
  midnight.  Python's chained `a <= b <= c` on datetimes is the
  lexicographic order `dtLe`.
* Times of day (`"%H:%M"` strings in the source) are minutes since
  midnight (`15:00` is 900, `09:00` is 540).
* The exchange calendar is a `Calendar` capability record; the adapter
  methods `is_trading_day` / `get_next_trading_day` /
  `get_previous_trading_day` already return safe defaults, so it is the
  `Option`-valued interface that we embed.
* File IO is factored out: a stored JSON payload is `StoredData`
  (`none` models both an absent file and an unreadable one, which the
  source treats identically), and each command handler returns the new
  ledger together with a flag saying whether it saved, plus a structured
  reply carrying the data the formatted message displays.
-/

namespace Fupan

/-- An instant: a calendar day number plus minutes since midnight. -/
structure DateTime where
  day : Int
  minute : Nat
deriving DecidableEq, Repr

/-- Python `a <= b` on datetimes: lexicographic on (day, time-of-day). -/
def dtLe (a b : DateTime) : Bool :=
  decide (a.day < b.day ∨ (a.day = b.day ∧ a.minute ≤ b.minute))

/-- The exchange-calendar capability, as exposed by the adapter methods
`is_trading_day`, `get_next_trading_day`, `get_previous_trading_day`
(each of which catches calendar errors and returns `false` / `None`). -/
structure Calendar where
  isSession : Int → Bool
  nextSession : Int → Option Int
  prevSession : Int → Option Int

/-- Plugin configuration consumed by `get_time_window_for_context`:
optional per-group and per-user window overrides plus the global
default window (source default `"15:00"`–`"09:00"`, i.e. 900–540). -/
structure PluginConfig where
  groupTimeWindows : String → Option (Nat × Nat)
  userTimeWindows : String → Option (Nat × Nat)
  startTime : Nat
  endTime : Nat

/-- `get_time_window_for_context`: group-specific override, then
user-specific override, then the global default. -/
def get_time_window_for_context (cfg : PluginConfig) (user_id : String)
    (group_id : Option String) : Nat × Nat :=
  match group_id.bind cfg.groupTimeWindows with
  | some w => w
  | none =>
    match cfg.userTimeWindows user_id with
    | some w => w
    | none => (cfg.startTime, cfg.endTime)

/-- The dict returned by `get_current_trading_status`. -/
structure TradingStatus where
  is_trading_day : Bool
  is_in_checkin_window : Bool
  checkin_start : Option DateTime
  checkin_end : Option DateTime
  next_trading_day : Option Int
  current_time : DateTime
deriving DecidableEq, Repr

/-- `get_current_trading_status` (src/main.py lines 210–286). -/
def get_current_trading_status (cal : Calendar) (cfg : PluginConfig)
    (user_id : String) (group_id : Option String) (now : DateTime) :
    TradingStatus :=
  let today := now.day
  let w := get_time_window_for_context cfg user_id group_id
  if cal.isSession today then
    let next_trading_day := cal.nextSession today
    let checkin_start : DateTime := ⟨today, w.1⟩
    let checkin_end : DateTime :=
      if w.2 < w.1 then
        ⟨(match next_trading_day with | some n => n | none => today), w.2⟩
      else ⟨today, w.2⟩
    { is_trading_day := true
      is_in_checkin_window := dtLe checkin_start now && dtLe now checkin_end
      checkin_start := some checkin_start
      checkin_end := some checkin_end
      next_trading_day := next_trading_day
      current_time := now }
  else
    match cal.nextSession today with
    | some n =>
      match cal.prevSession n with
      | some p =>
        let checkin_start : DateTime := ⟨p, w.1⟩
        let checkin_end : DateTime := ⟨n, w.2⟩
        { is_trading_day := false
          is_in_checkin_window := dtLe checkin_start now && dtLe now checkin_end
          checkin_start := some checkin_start
          checkin_end := some checkin_end
          next_trading_day := some n
          current_time := now }
      | none =>
        { is_trading_day := false, is_in_checkin_window := false
          checkin_start := none, checkin_end := none
          next_trading_day := some n, current_time := now }
    | none =>
      { is_trading_day := false, is_in_checkin_window := false
        checkin_start := none, checkin_end := none
        next_trading_day := none, current_time := now }

/-- One check-in record, as written by `fupan_checkin` (lines 423–433). -/
structure CheckinRecord where
  date : Int
  timestamp : DateTime
  trading_day : Int
  next_trading_day : Option Int
  context : String
  conclusion : Option String
deriving DecidableEq, Repr

/-- The in-memory per-(user, scope) ledger dict. -/
structure UserLedger where
  user_id : String
  nickname : String
  checkins : List CheckinRecord
  total_count : Int
  strike_count : Int
deriving DecidableEq, Repr

/-- A readable persisted JSON payload.  `strike_count` is optional:
older records may lack it (lines 99–101 migrate it on read). -/
structure StoredData where
  user_id : String
  nickname : String
  checkins : List CheckinRecord
  total_count : Int
  strike_count : Option Int
deriving DecidableEq, Repr

/-- `load_user_checkin_data` (lines 92–106).  `none` models both a
missing file and an unreadable payload (the `except` branch): either
way a fresh empty ledger is returned, never an error.  A readable
payload is returned as stored, with `strike_count` defaulted to 0 when
absent. -/
def load_user_checkin_data (user_id : String) (stored : Option StoredData) :
    UserLedger :=
  match stored with
  | some d =>
    { user_id := d.user_id, nickname := d.nickname, checkins := d.checkins
      total_count := d.total_count
      strike_count := d.strike_count.getD 0 }
  | none =>
    { user_id := user_id, nickname := "", checkins := []
      total_count := 0, strike_count := 0 }

/-- `save_user_checkin_data`: the payload written for a ledger (all
fields, `strike_count` included). -/
def save_user_checkin_data (l : UserLedger) : StoredData :=
  { user_id := l.user_id, nickname := l.nickname, checkins := l.checkins
    total_count := l.total_count, strike_count := some l.strike_count }

/-- The structured content of `can_user_checkin`'s reply string. -/
inductive CheckinMsg where
  /-- The reply "不在打卡时间窗口内，请在 start – end 之间打卡". -/
  | notInWindow (wstart wend : DateTime)
  /-- The reply "今天不是交易日，且未找到合适的打卡时间窗口". -/
  | noWindowToday
  /-- The reply "交易日（…）已复盘 下一个交易日：…". -/
  | alreadyCheckedIn (currentTradingDay nextTradingDay : Option Int)
  /-- The reply "可以打卡". -/
  | canCheckin
deriving DecidableEq, Repr

/-- `can_user_checkin` (lines 288–330), with the ledger load factored
out as the `ledger` argument. -/
def can_user_checkin (cal : Calendar) (cfg : PluginConfig) (user_id : String)
    (group_id : Option String) (ledger : UserLedger) (now : DateTime) :
    Bool × CheckinMsg :=
  let status := get_current_trading_status cal cfg user_id group_id now
  if !status.is_in_checkin_window then
    match status.checkin_start, status.checkin_end with
    | some s, some e => (false, .notInWindow s e)
    | _, _ => (false, .noWindowToday)
  else
    if ledger.checkins.any (fun c => c.date == now.day) then
      let currentTradingDay : Option Int :=
        if cal.isSession now.day then some now.day else cal.prevSession now.day
      (false, .alreadyCheckedIn currentTradingDay (cal.nextSession now.day))
    else
      (true, .canCheckin)

/-- The loop body of `calculate_simple_strike_count` (lines 360–374):
walk the distinct trading days newest-first, counting while the raw
calendar-day difference is exactly 1. -/
def strikeWalk : Int → Int → List Int → Int
  | _, acc, [] => acc
  | cur, acc, d :: rest =>
    if acc = 0 ∨ cur - d = 1 then strikeWalk d (acc + 1) rest else acc

/-- Insertion step of the ascending date sort (`trading_day_dates.sort()`). -/
def insertAsc (x : Int) : List Int → List Int
  | [] => [x]
  | y :: ys => if x ≤ y then x :: y :: ys else y :: insertAsc x ys

/-- `trading_day_dates.sort()`: ascending sort of the date list. -/
def sortAsc : List Int → List Int
  | [] => []
  | x :: xs => insertAsc x (sortAsc xs)

/-- `calculate_simple_strike_count` (lines 332–374).  The Python
`list({...})` set comprehension followed by `.sort()` is modelled as
`dedup` followed by `sortAsc` (the set's iteration order is irrelevant
because of the sort). -/
def calculate_simple_strike_count (checkins : List CheckinRecord) : Int :=
  if checkins.isEmpty then 0
  else
    let trading_days_checked_in := (checkins.map (·.trading_day)).dedup
    if trading_days_checked_in.isEmpty then 0
    else
      match (sortAsc trading_days_checked_in).reverse with
      | [] => 0
      | d :: rest => strikeWalk d 0 (d :: rest)

/-- The incremental strike update of `fupan_checkin` (lines 435–456):
given the previous check-in (if any), the cached strike count and the
new record, produce the new strike count.  The Python truthiness test
`previous_next_trading_day and ...` is the `Option` match. -/
def incrementalStrikeStep (prev : Option CheckinRecord) (strike : Int)
    (r : CheckinRecord) : Int :=
  match prev with
  | none => 1
  | some p =>
    if r.trading_day = p.trading_day then strike
    else
      match p.next_trading_day with
      | some pn => if r.trading_day = pn then strike + 1 else 1
      | none => 1

/-- §4.3's incremental algorithm applied check-in by check-in over a
whole history, starting from an empty ledger. -/
def incrementalStrikeAux : Option CheckinRecord → Int → List CheckinRecord → Int
  | _, s, [] => s
  | prev, s, r :: rs => incrementalStrikeAux (some r) (incrementalStrikeStep prev s r) rs

/-- The strike count after incrementally processing a full history. -/
def incrementalStrike (l : List CheckinRecord) : Int :=
  incrementalStrikeAux none 0 l

/-- The trading day a check-in submitted at `now` counts for
(lines 405–413): `now`'s date on a session day, else the previous
session (falling back to `now`'s date when there is none). -/
def checkinTradingDay (cal : Calendar) (now : DateTime) : Int :=
  if cal.isSession now.day then now.day
  else
    match cal.prevSession now.day with
    | some p => p
    | none => now.day

/-- The `next_trading_day` recorded with a check-in (lines 414–420). -/
def checkinNextTradingDay (cal : Calendar) (now : DateTime) : Option Int :=
  if cal.isSession now.day then cal.nextSession now.day
  else
    match cal.prevSession now.day with
    | some p => cal.nextSession p
    | none => cal.nextSession now.day

/-- The record appended by a successful check-in (lines 423–433). -/
def buildCheckinRecord (cal : Calendar) (group_id : Option String)
    (conclusion : String) (now : DateTime) : CheckinRecord :=
  { date := now.day
    timestamp := now
    trading_day := checkinTradingDay cal now
    next_trading_day := checkinNextTradingDay cal now
    context := if group_id.isSome then "group" else "private"
    conclusion := if conclusion == "" then none else some conclusion }

/-- `fupan_checkin` (lines 377–515): eligibility check, then append the
record, update the strike incrementally, set the total, save.  Returns
the resulting ledger, whether it was saved, and the structured reply;
on rejection the ledger is untouched and nothing is saved. -/
def fupan_checkin (cal : Calendar) (cfg : PluginConfig) (user_id : String)
    (group_id : Option String) (nickname : String) (conclusion : String)
    (now : DateTime) (stored : Option StoredData) :
    UserLedger × Bool × CheckinMsg :=
  let user_data := load_user_checkin_data user_id stored
  let cm := can_user_checkin cal cfg user_id group_id user_data now
  if !cm.1 then (user_data, false, cm.2)
  else
    let user_data := { user_data with nickname := nickname }
    let checkin_record := buildCheckinRecord cal group_id conclusion now
    let strike_count :=
      incrementalStrikeStep user_data.checkins.getLast? user_data.strike_count
        checkin_record
    let checkins := user_data.checkins ++ [checkin_record]
    ({ user_data with
        checkins := checkins
        total_count := (checkins.length : Int)
        strike_count := strike_count },
      true, cm.2)

/-- The structured content of `fupan_revoke`'s reply. -/
inductive RevokeMsg where
  /-- The reply "您还没有任何复盘记录，无需撤销". -/
  | noRecords
  /-- The reply "已成功撤销最后一次复盘 …" with the revoked record's date and
  timestamp and the new totals. -/
  | revoked (date : Int) (ts : DateTime) (total strike : Int)
deriving DecidableEq, Repr

/-- `fupan_revoke` (lines 654–701): with no records, reply and change
nothing; otherwise pop the last record, set `total_count` to the new
length, recompute the strike from scratch, and save. -/
def fupan_revoke (user_id : String) (stored : Option StoredData) :
    UserLedger × Bool × RevokeMsg :=
  let user_data := load_user_checkin_data user_id stored
  match user_data.checkins.getLast? with
  | none => (user_data, false, .noRecords)
  | some last_checkin =>
    let checkins := user_data.checkins.dropLast
    let strike_count :=
      if checkins.length > 0 then calculate_simple_strike_count checkins else 0
    let user_data' :=
      { user_data with
          checkins := checkins
          total_count := (checkins.length : Int)
          strike_count := strike_count }
    (user_data', true,
      .revoked last_checkin.date last_checkin.timestamp
        user_data'.total_count user_data'.strike_count)

/-- One entry of `rank_data` in `fupan_rank` (lines 620–626). -/
structure RankEntry where
  user_id : String
  nickname : String
  count : Int
deriving DecidableEq, Repr

/-- Building a rank entry from a stored payload: nickname falls back to
the user id when empty, the count is the strike count (defaulted to 0
when the field is absent). -/
def rankEntryOf (d : StoredData) : RankEntry :=
  { user_id := d.user_id
    nickname := if d.nickname == "" then d.user_id else d.nickname
    count := d.strike_count.getD 0 }

/-- Stable insertion for the descending sort
`rank_data.sort(key=..., reverse=True)`: a later element goes after
every already-placed element of greater or equal count. -/
def insertDesc (x : RankEntry) : List RankEntry → List RankEntry
  | [] => [x]
  | y :: ys => if y.count ≤ x.count then x :: y :: ys else y :: insertDesc x ys

/-- Python's stable sort by count descending. -/
def rankSort : List RankEntry → List RankEntry
  | [] => []
  | x :: xs => insertDesc x (rankSort xs)

/-- `fupan_rank` (lines 600–651) on the readable stored payloads of the
current scope, in file-enumeration order: sort by strike count
descending (stable) and display the top 10. -/
def fupan_rank (files : List StoredData) : List RankEntry :=
  (rankSort (files.map rankEntryOf)).take 10

/-! Concrete fixtures used to evaluate the development on explicit
inputs.  `demoCal` is a five-day-week-like calendar: day 0 is a session
(a Friday), days 1 and 2 are closed (a weekend), and every day from 3
on is a session. -/

/-- A concrete calendar: sessions are day 0 and every day from 3 on. -/
def demoCal : Calendar :=
  { isSession := fun d => d == 0 || decide (3 ≤ d)
    nextSession := fun d => some (if d < 0 then 0 else if d < 3 then 3 else d + 1)
    prevSession := fun d => if d ≤ 0 then none else some (if d ≤ 3 then 0 else d - 1) }

/-- A configuration with no overrides and the default overnight window
15:00–09:00 (900–540 minutes). -/
def demoCfg : PluginConfig :=
  { groupTimeWindows := fun _ => none
    userTimeWindows := fun _ => none
    startTime := 900
    endTime := 540 }

/-- A check-in submitted on the Friday (day 0). -/
def demoFri : CheckinRecord :=
  { date := 0, timestamp := ⟨0, 960⟩, trading_day := 0
    next_trading_day := some 3, context := "private", conclusion := none }

/-- A check-in submitted on the following Monday (day 3). -/
def demoMon : CheckinRecord :=
  { date := 3, timestamp := ⟨3, 960⟩, trading_day := 3
    next_trading_day := some 4, context := "private", conclusion := none }

/-- A check-in submitted on the Tuesday (day 4). -/
def demoTue : CheckinRecord :=
  { date := 4, timestamp := ⟨4, 960⟩, trading_day := 4
    next_trading_day := some 5, context := "private", conclusion := none }

/-- A Friday-then-Monday history: consecutive sessions separated by a
weekend, so the two trading days are 3 calendar days apart. -/
def demoWeekendHistory : List CheckinRecord := [demoFri, demoMon]

/-- A Monday-then-Tuesday history: consecutive sessions that are also
consecutive calendar days. -/
def demoConsecutiveHistory : List CheckinRecord := [demoMon, demoTue]

/-- The stored ledger after the Friday and Monday check-ins, with the
incrementally maintained strike count 2. -/
def demoLedgerStored : StoredData :=
  { user_id := "u", nickname := "nick", checkins := demoWeekendHistory
    total_count := 2, strike_count := some 2 }

/-- A check-in performed on the Friday, starting from no stored data. -/
def demoCheckinFriday : UserLedger × Bool × CheckinMsg :=
  fupan_checkin demoCal demoCfg "u" none "nick" "" ⟨0, 960⟩ none

/-- A check-in performed the following Monday on the saved Friday
ledger. -/
def demoCheckinMonday : UserLedger × Bool × CheckinMsg :=
  fupan_checkin demoCal demoCfg "u" none "nick" "" ⟨3, 960⟩
    (some (save_user_checkin_data demoCheckinFriday.1))

/-! ### Helper lemmas -/

theorem dtLe_eq_true_iff {a b : DateTime} :
    dtLe a b = true ↔ (a.day < b.day ∨ (a.day = b.day ∧ a.minute ≤ b.minute)) := by
  simp [dtLe]

theorem strikeWalk_ge (l : List Int) : ∀ cur acc : Int, acc ≤ strikeWalk cur acc l := by
  induction l with
  | nil => intro cur acc; simp [strikeWalk]
  | cons d rest ih =>
    intro cur acc
    simp only [strikeWalk]
    split
    · exact le_trans (by omega) (ih d (acc + 1))
    · exact le_refl acc

theorem insertAsc_ne_nil (x : Int) (l : List Int) : insertAsc x l ≠ [] := by
  cases l with
  | nil => simp [insertAsc]
  | cons y ys => simp only [insertAsc]; split <;> simp

theorem sortAsc_ne_nil (l : List Int) (h : l ≠ []) : sortAsc l ≠ [] := by
  cases l with
  | nil => exact absurd rfl h
  | cons x xs => exact insertAsc_ne_nil x (sortAsc xs)

theorem calc_simple_pos (c : CheckinRecord) (cs : List CheckinRecord) :
    1 ≤ calculate_simple_strike_count (c :: cs) := by
  have hne : ((c :: cs).map (·.trading_day)).dedup ≠ [] := by
    simp [List.dedup_eq_nil]
  have hne2 : (sortAsc (((c :: cs).map (·.trading_day)).dedup)).reverse ≠ [] := by
    simp only [ne_eq, List.reverse_eq_nil_iff]
    exact sortAsc_ne_nil _ hne
  obtain ⟨d, rest, hrev⟩ := List.exists_cons_of_ne_nil hne2
  simp only [calculate_simple_strike_count, List.isEmpty_cons, Bool.false_eq_true,
    if_false, hrev]
  rw [if_neg (by simp [List.isEmpty_iff, hne])]
  simp only [strikeWalk]
  rw [if_pos (Or.inl trivial)]
  exact le_trans (by omega) (strikeWalk_ge rest d 1)

/-- C6: `calculate_simple_strike_count` returns a non-negative integer,
and it returns 0 exactly when the list of check-ins is empty. -/
theorem calc_strike_nonneg_zero_iff (checkins : List CheckinRecord) :
    0 ≤ calculate_simple_strike_count checkins ∧
    (calculate_simple_strike_count checkins = 0 ↔ checkins = []) := by
  cases checkins with
  | nil => exact ⟨by simp [calculate_simple_strike_count], by simp [calculate_simple_strike_count]⟩
  | cons c cs =>
    have h := calc_simple_pos c cs
    refine ⟨by omega, ?_, ?_⟩
    · intro h0; omega
    · intro h0; cases h0

/-- C7: `load_user_checkin_data` is total (never an error): with nothing
persisted, or an unreadable payload, it returns a fresh empty ledger
with the user id set and zero counts; a readable payload is returned
with all fields preserved and `strike_count` defaulted to 0 when the
persisted record lacks that field. -/
theorem load_defaults_and_migrates (u : String) :
    load_user_checkin_data u none =
      { user_id := u, nickname := "", checkins := [], total_count := 0,
        strike_count := 0 } ∧
    ∀ d : StoredData,
      (load_user_checkin_data u (some d)).user_id = d.user_id ∧
      (load_user_checkin_data u (some d)).nickname = d.nickname ∧
      (load_user_checkin_data u (some d)).checkins = d.checkins ∧
      (load_user_checkin_data u (some d)).total_count = d.total_count ∧
      (load_user_checkin_data u (some d)).strike_count = d.strike_count.getD 0 ∧
      (d.strike_count = none →
        (load_user_checkin_data u (some d)).strike_count = 0) :=
  ⟨rfl, fun d =>
    ⟨rfl, rfl, rfl, rfl, rfl, fun h => by simp [load_user_checkin_data, h]⟩⟩

theorem load_defaults_and_migrates_witness :
    load_user_checkin_data "u" none =
      { user_id := "u", nickname := "", checkins := [], total_count := 0,
        strike_count := 0 } ∧
    (load_user_checkin_data "u"
      (some { user_id := "a", nickname := "n", checkins := [], total_count := 0,
              strike_count := none })).strike_count = 0 :=
  ⟨(load_defaults_and_migrates "u").1,
    ((load_defaults_and_migrates "u").2 _).2.2.2.2.2 rfl⟩

/-- C10: revoking with an empty check-in history changes nothing and
saves nothing: the ledger is returned untouched, the saved flag is
`false`, and the reply is the no-records message. -/
theorem revoke_empty_noop (u : String) (stored : Option StoredData)
    (h : (load_user_checkin_data u stored).checkins = []) :
    fupan_revoke u stored =
      (load_user_checkin_data u stored, false, RevokeMsg.noRecords) := by
  simp [fupan_revoke, h]

theorem revoke_empty_noop_witness :
    fupan_revoke "u" none =
      (load_user_checkin_data "u" none, false, RevokeMsg.noRecords) :=
  revoke_empty_noop "u" none rfl

theorem insertDesc_perm (x : RankEntry) (l : List RankEntry) :
    List.Perm (insertDesc x l) (x :: l) := by
  induction l with
  | nil => exact List.Perm.refl _
  | cons y ys ih =>
    simp only [insertDesc]
    split
    · exact List.Perm.refl _
    · exact (ih.cons y).trans (List.Perm.swap x y ys)

theorem rankSort_perm (l : List RankEntry) : List.Perm (rankSort l) l := by
  induction l with
  | nil => exact List.Perm.refl _
  | cons x xs ih => exact (insertDesc_perm x (rankSort xs)).trans (ih.cons x)

theorem insertDesc_pairwise (x : RankEntry) (l : List RankEntry)
    (h : l.Pairwise (fun a b => b.count ≤ a.count)) :
    (insertDesc x l).Pairwise (fun a b => b.count ≤ a.count) := by
  induction l with
  | nil => simp [insertDesc]
  | cons y ys ih =>
    rw [List.pairwise_cons] at h
    obtain ⟨hy, hys⟩ := h
    simp only [insertDesc]
    split
    · rename_i hc
      refine List.Pairwise.cons ?_ (List.Pairwise.cons hy hys)
      intro z hz
      rcases List.mem_cons.mp hz with rfl | hz'
      · exact hc
      · exact le_trans (hy z hz') hc
    · rename_i hc
      push_neg at hc
      refine List.Pairwise.cons ?_ (ih hys)
      intro z hz
      rcases List.mem_cons.mp ((insertDesc_perm x ys).mem_iff.mp hz) with rfl | hz'
      · omega
      · exact hy z hz'

theorem rankSort_pairwise (l : List RankEntry) :
    (rankSort l).Pairwise (fun a b => b.count ≤ a.count) := by
  induction l with
  | nil => simp [rankSort]
  | cons x xs ih => exact insertDesc_pairwise x (rankSort xs) ih

theorem insertDesc_filter_eq (x : RankEntry) (l : List RankEntry) (k : Int)
    (hx : x.count = k) :
    (insertDesc x l).filter (fun e => e.count == k) =
      x :: l.filter (fun e => e.count == k) := by
  induction l with
  | nil => simp [insertDesc, hx]
  | cons y ys ih =>
    simp only [insertDesc]
    split
    · simp [List.filter_cons, hx]
    · rename_i hc
      push_neg at hc
      have hy : (y.count == k) = false := by
        simp only [beq_eq_false_iff_ne, ne_eq]
        omega
      simp [List.filter_cons, hy, ih]

theorem insertDesc_filter_ne (x : RankEntry) (l : List RankEntry) (k : Int)
    (hx : x.count ≠ k) :
    (insertDesc x l).filter (fun e => e.count == k) =
      l.filter (fun e => e.count == k) := by
  induction l with
  | nil => simp [insertDesc, hx]
  | cons y ys ih =>
    simp only [insertDesc]
    split
    · simp [List.filter_cons, hx]
    · simp [List.filter_cons, ih]

theorem rankSort_filter (l : List RankEntry) (k : Int) :
    (rankSort l).filter (fun e => e.count == k) =
      l.filter (fun e => e.count == k) := by
  induction l with
  | nil => rfl
  | cons x xs ih =>
    by_cases hx : x.count = k
    · simp only [rankSort, insertDesc_filter_eq x _ k hx, ih, List.filter_cons]
      simp [hx]
    · simp only [rankSort, insertDesc_filter_ne x _ k hx, ih, List.filter_cons]
      simp [hx]

/-- C9: the rank list is the scope's ledgers sorted by strike count
descending (a permutation, pairwise descending), the sort is stable
(for each count value the entries keep their encounter order), the
displayed list is the top-10 prefix of the sorted list, and on three
ledgers with strike counts 5, 3, 8 the returned ordering is
[8, 5, 3]. -/
theorem rank_sorted_stable_top10 (files : List StoredData) (k : Int) :
    List.Perm (rankSort (files.map rankEntryOf)) (files.map rankEntryOf) ∧
    (rankSort (files.map rankEntryOf)).Pairwise (fun a b => b.count ≤ a.count) ∧
    (rankSort (files.map rankEntryOf)).filter (fun e => e.count == k) =
      (files.map rankEntryOf).filter (fun e => e.count == k) ∧
    fupan_rank files = (rankSort (files.map rankEntryOf)).take 10 ∧
    (fupan_rank files).length ≤ 10 ∧
    (fupan_rank
        [{ user_id := "a", nickname := "A", checkins := [], total_count := 0,
           strike_count := some 5 },
         { user_id := "b", nickname := "B", checkins := [], total_count := 0,
           strike_count := some 3 },
         { user_id := "c", nickname := "C", checkins := [], total_count := 0,
           strike_count := some 8 }]).map RankEntry.count = [8, 5, 3] := by
  refine ⟨rankSort_perm _, rankSort_pairwise _, rankSort_filter _ k, rfl, ?_, by decide⟩
  simp only [fupan_rank, List.length_take]
  omega

/-- C4: with the overnight window 15:00–09:00 on a trading day, window
resolution yields windowStart = today@15:00 and windowEnd =
nextSession(today)@09:00, and isInWindow is windowStart ≤ now ≤
windowEnd; concretely 16:00 on the trading day is in-window, 10:00 the
same day is not, and 08:00 on the following non-trading calendar day is
still in-window when that instant lies before the next session's
09:00. -/
theorem window_resolution_overnight (cal : Calendar) (cfg : PluginConfig)
    (u : String) (g : Option String) (today n : Int)
    (hwin : get_time_window_for_context cfg u g = (900, 540))
    (hs : cal.isSession today = true)
    (hn : cal.nextSession today = some n)
    (hlt : today < n) :
    (∀ now : DateTime, now.day = today →
       (get_current_trading_status cal cfg u g now).checkin_start =
         some ⟨today, 900⟩ ∧
       (get_current_trading_status cal cfg u g now).checkin_end =
         some ⟨n, 540⟩ ∧
       (get_current_trading_status cal cfg u g now).is_in_checkin_window =
         (dtLe ⟨today, 900⟩ now && dtLe now ⟨n, 540⟩)) ∧
    (get_current_trading_status cal cfg u g ⟨today, 960⟩).is_in_checkin_window
      = true ∧
    (get_current_trading_status cal cfg u g ⟨today, 600⟩).is_in_checkin_window
      = false ∧
    (cal.isSession (today + 1) = false → cal.nextSession (today + 1) = some n →
      cal.prevSession n = some today → today + 1 ≤ n →
      (get_current_trading_status cal cfg u g
          ⟨today + 1, 480⟩).is_in_checkin_window = true) := by
  have hmain : ∀ now : DateTime, now.day = today →
      get_current_trading_status cal cfg u g now =
        { is_trading_day := true
          is_in_checkin_window := dtLe ⟨today, 900⟩ now && dtLe now ⟨n, 540⟩
          checkin_start := some ⟨today, 900⟩
          checkin_end := some ⟨n, 540⟩
          next_trading_day := some n
          current_time := now } := by
    intro now hd
    simp only [get_current_trading_status, hwin, hd, hs, hn, if_true]
    norm_num
  refine ⟨fun now hd => by rw [hmain now hd]; exact ⟨rfl, rfl, rfl⟩, ?_, ?_, ?_⟩
  · rw [hmain ⟨today, 960⟩ rfl]
    simp only [Bool.and_eq_true, dtLe_eq_true_iff]
    exact ⟨Or.inr ⟨by trivial, by norm_num⟩, Or.inl hlt⟩
  · rw [hmain ⟨today, 600⟩ rfl]
    have h1 : dtLe ⟨today, 900⟩ ⟨today, 600⟩ = false := by
      simp only [dtLe, decide_eq_false_iff_not]
      omega
    rw [h1]
    simp
  · intro h1 h2 h3 h4
    simp only [get_current_trading_status, hwin, h1, h2, h3, Bool.false_eq_true,
      if_false]
    simp only [Bool.and_eq_true, dtLe_eq_true_iff]
    refine ⟨Or.inl (by omega), ?_⟩
    rcases lt_or_eq_of_le h4 with h | h
    · exact Or.inl h
    · exact Or.inr ⟨h, by norm_num⟩

theorem window_resolution_overnight_witness :
    (get_current_trading_status demoCal demoCfg "u" none
        ⟨0, 960⟩).is_in_checkin_window = true ∧
    (get_current_trading_status demoCal demoCfg "u" none
        ⟨0, 600⟩).is_in_checkin_window = false ∧
    (get_current_trading_status demoCal demoCfg "u" none
        ⟨1, 480⟩).is_in_checkin_window = true ∧
    (get_current_trading_status demoCal demoCfg "u" none
        ⟨0, 960⟩).checkin_start = some ⟨0, 900⟩ ∧
    (get_current_trading_status demoCal demoCfg "u" none
        ⟨0, 960⟩).checkin_end = some ⟨3, 540⟩ := by
  have T := window_resolution_overnight demoCal demoCfg "u" none 0 3 rfl
    (by decide) (by decide) (by decide)
  exact ⟨T.2.1, T.2.2.1, T.2.2.2 (by decide) (by decide) (by decide) (by decide),
    (T.1 ⟨0, 960⟩ rfl).1, (T.1 ⟨0, 960⟩ rfl).2.1⟩

theorem can_user_checkin_fst (cal : Calendar) (cfg : PluginConfig) (u : String)
    (g : Option String) (l : UserLedger) (now : DateTime) :
    (can_user_checkin cal cfg u g l now).1 =
      ((get_current_trading_status cal cfg u g now).is_in_checkin_window &&
        !(l.checkins.any (fun c => c.date == now.day))) := by
  cases hw : (get_current_trading_status cal cfg u g now).is_in_checkin_window with
  | false =>
    rcases hcs : (get_current_trading_status cal cfg u g now).checkin_start with _ | s <;>
      rcases hce : (get_current_trading_status cal cfg u g now).checkin_end with _ | e <;>
      simp [can_user_checkin, hw, hcs, hce]
  | true =>
    cases hany : l.checkins.any (fun c => c.date == now.day) with
    | false => simp [can_user_checkin, hw, hany]
    | true => simp [can_user_checkin, hw, hany]

theorem can_user_checkin_true_shape (cal : Calendar) (cfg : PluginConfig)
    (u : String) (g : Option String) (l : UserLedger) (now : DateTime)
    (h : (can_user_checkin cal cfg u g l now).1 = true) :
    can_user_checkin cal cfg u g l now = (true, CheckinMsg.canCheckin) ∧
    l.checkins.any (fun c => c.date == now.day) = false := by
  rw [can_user_checkin_fst] at h
  rw [Bool.and_eq_true] at h
  obtain ⟨hw, hany⟩ := h
  rw [Bool.not_eq_true'] at hany
  exact ⟨by simp [can_user_checkin, hw, hany], hany⟩

theorem fupan_checkin_success_shape (cal : Calendar) (cfg : PluginConfig)
    (u : String) (g : Option String) (nick concl : String) (now : DateTime)
    (stored : Option StoredData)
    (h : (fupan_checkin cal cfg u g nick concl now stored).2.1 = true) :
    (can_user_checkin cal cfg u g (load_user_checkin_data u stored) now).1 = true ∧
    fupan_checkin cal cfg u g nick concl now stored =
      ({ user_id := (load_user_checkin_data u stored).user_id
         nickname := nick
         checkins := (load_user_checkin_data u stored).checkins ++
           [buildCheckinRecord cal g concl now]
         total_count :=
           ((((load_user_checkin_data u stored).checkins ++
             [buildCheckinRecord cal g concl now]).length : Nat) : Int)
         strike_count := incrementalStrikeStep
           (load_user_checkin_data u stored).checkins.getLast?
           (load_user_checkin_data u stored).strike_count
           (buildCheckinRecord cal g concl now) },
        true, CheckinMsg.canCheckin) := by
  cases hcan : (can_user_checkin cal cfg u g (load_user_checkin_data u stored) now).1 with
  | false => simp [fupan_checkin, hcan] at h
  | true =>
    have hshape := (can_user_checkin_true_shape cal cfg u g
      (load_user_checkin_data u stored) now hcan).1
    exact ⟨rfl, by simp [fupan_checkin, hshape]⟩

/-- C2: on every successful check-in the incremental streak update
satisfies: a new record for the same trading day as the previous
check-in leaves `strike_count` unchanged; a new trading day equal to
the previous record's `next_trading_day` increments it by exactly 1;
every other case (the very first check-in of an empty ledger included)
sets it to 1. -/
theorem streak_incremental_update_cases (cal : Calendar) (cfg : PluginConfig)
    (u : String) (g : Option String) (nick concl : String) (now : DateTime)
    (stored : Option StoredData)
    (h : (fupan_checkin cal cfg u g nick concl now stored).2.1 = true) :
    ((load_user_checkin_data u stored).checkins.getLast? = none →
      (fupan_checkin cal cfg u g nick concl now stored).1.strike_count = 1) ∧
    ∀ prev, (load_user_checkin_data u stored).checkins.getLast? = some prev →
      ((checkinTradingDay cal now = prev.trading_day →
         (fupan_checkin cal cfg u g nick concl now stored).1.strike_count =
           (load_user_checkin_data u stored).strike_count) ∧
       (checkinTradingDay cal now ≠ prev.trading_day →
        prev.next_trading_day = some (checkinTradingDay cal now) →
         (fupan_checkin cal cfg u g nick concl now stored).1.strike_count =
           (load_user_checkin_data u stored).strike_count + 1) ∧
       (checkinTradingDay cal now ≠ prev.trading_day →
        prev.next_trading_day ≠ some (checkinTradingDay cal now) →
         (fupan_checkin cal cfg u g nick concl now stored).1.strike_count = 1)) := by
  obtain ⟨hcan, hshape⟩ := fupan_checkin_success_shape cal cfg u g nick concl now
    stored h
  rw [hshape]
  constructor
  · intro hlast
    simp [incrementalStrikeStep, hlast]
  · intro prev hlast
    refine ⟨?_, ?_, ?_⟩
    · intro he
      simp [incrementalStrikeStep, hlast, buildCheckinRecord, he]
    · intro hne hnx
      simp [incrementalStrikeStep, hlast, buildCheckinRecord, hne, hnx]
    · intro hne hnx
      cases hpn : prev.next_trading_day with
      | none => simp [incrementalStrikeStep, hlast, buildCheckinRecord, hne, hpn]
      | some pn =>
        have hpn' : pn ≠ checkinTradingDay cal now := fun hk =>
          hnx (by rw [hpn, hk])
        simp only [incrementalStrikeStep, hlast, buildCheckinRecord]
        simp [hne, hpn]
        intro hk
        exact (hpn' hk.symm).elim

theorem streak_incremental_update_cases_witness :
    (fupan_checkin demoCal demoCfg "u" none "nick" "" ⟨0, 960⟩ none).2.1 = true ∧
    (fupan_checkin demoCal demoCfg "u" none "nick" "" ⟨0, 960⟩
        none).1.strike_count = 1 ∧
    (fupan_checkin demoCal demoCfg "u" none "nick" "" ⟨4, 960⟩
        (some demoLedgerStored)).2.1 = true ∧
    (fupan_checkin demoCal demoCfg "u" none "nick" "" ⟨4, 960⟩
        (some demoLedgerStored)).1.strike_count =
      (load_user_checkin_data "u" (some demoLedgerStored)).strike_count + 1 :=
  ⟨by decide,
   (streak_incremental_update_cases demoCal demoCfg "u" none "nick" "" ⟨0, 960⟩
      none (by decide)).1 (by decide),
   by decide,
   (((streak_incremental_update_cases demoCal demoCfg "u" none "nick" ""
      ⟨4, 960⟩ (some demoLedgerStored) (by decide)).2 demoMon
        (by decide)).2.1 (by decide) (by decide))⟩

/-- C5: `total_count` equals the length of `checkins` after every
mutating operation — a successful check-in and a non-empty revoke both
re-establish it — and for every ledger returned by `load`: a fresh
ledger satisfies it outright, and a loaded payload satisfies it
whenever the persisted payload did (which every payload this plugin
saves does, by the first two parts). -/
theorem total_count_matches_length :
    (∀ (cal : Calendar) (cfg : PluginConfig) (u : String) (g : Option String)
       (nick concl : String) (now : DateTime) (stored : Option StoredData),
       (fupan_checkin cal cfg u g nick concl now stored).2.1 = true →
       (fupan_checkin cal cfg u g nick concl now stored).1.total_count =
         ((fupan_checkin cal cfg u g nick concl now stored).1.checkins.length :
           Int)) ∧
    (∀ (u : String) (stored : Option StoredData),
       (fupan_revoke u stored).2.1 = true →
       (fupan_revoke u stored).1.total_count =
         ((fupan_revoke u stored).1.checkins.length : Int)) ∧
    (∀ u : String,
       (load_user_checkin_data u none).total_count =
         ((load_user_checkin_data u none).checkins.length : Int)) ∧
    (∀ (u : String) (d : StoredData),
       d.total_count = (d.checkins.length : Int) →
       (load_user_checkin_data u (some d)).total_count =
         ((load_user_checkin_data u (some d)).checkins.length : Int)) := by
  refine ⟨?_, ?_, fun u => rfl, fun u d hd => hd⟩
  · intro cal cfg u g nick concl now stored h
    obtain ⟨-, hshape⟩ := fupan_checkin_success_shape cal cfg u g nick concl now
      stored h
    rw [hshape]
  · intro u stored h
    cases hlast : (load_user_checkin_data u stored).checkins.getLast? with
    | none => simp [fupan_revoke, hlast] at h
    | some last => simp [fupan_revoke, hlast]

theorem total_count_matches_length_witness :
    (fupan_checkin demoCal demoCfg "u" none "nick" "" ⟨0, 960⟩ none).1.total_count =
      ((fupan_checkin demoCal demoCfg "u" none "nick" "" ⟨0, 960⟩
          none).1.checkins.length : Int) ∧
    (fupan_revoke "u" (some demoLedgerStored)).1.total_count =
      ((fupan_revoke "u" (some demoLedgerStored)).1.checkins.length : Int) ∧
    (load_user_checkin_data "u" none).total_count =
      ((load_user_checkin_data "u" none).checkins.length : Int) ∧
    (load_user_checkin_data "u" (some demoLedgerStored)).total_count =
      ((load_user_checkin_data "u" (some demoLedgerStored)).checkins.length :
        Int) :=
  ⟨total_count_matches_length.1 demoCal demoCfg "u" none "nick" "" ⟨0, 960⟩ none
     (by decide),
   total_count_matches_length.2.1 "u" (some demoLedgerStored) (by decide),
   total_count_matches_length.2.2.1 "u",
   total_count_matches_length.2.2.2 "u" demoLedgerStored (by decide)⟩

/-- C8: a check-in attempt by a user who already has a record with the
same calendar date is rejected as a structured (false, reason) result
and appends nothing; consequently a ledger whose dates are pairwise
distinct keeps pairwise-distinct dates across any check-in attempt, so
every ledger holds at most one check-in per calendar date. -/
theorem checkin_per_date_dedup (cal : Calendar) (cfg : PluginConfig)
    (u : String) (g : Option String) (nick concl : String) (now : DateTime)
    (stored : Option StoredData) :
    ((∃ c ∈ (load_user_checkin_data u stored).checkins, c.date = now.day) →
       (can_user_checkin cal cfg u g (load_user_checkin_data u stored) now).1 =
         false ∧
       (fupan_checkin cal cfg u g nick concl now stored).1 =
         load_user_checkin_data u stored ∧
       (fupan_checkin cal cfg u g nick concl now stored).2.1 = false) ∧
    (((load_user_checkin_data u stored).checkins.map (·.date)).Nodup →
      ((fupan_checkin cal cfg u g nick concl now
          stored).1.checkins.map (·.date)).Nodup) := by
  constructor
  · intro hdup
    have hany : (load_user_checkin_data u stored).checkins.any
        (fun c => c.date == now.day) = true := by
      rw [List.any_eq_true]
      obtain ⟨c, hc, he⟩ := hdup
      refine ⟨c, hc, ?_⟩
      simpa using he
    have hfalse : (can_user_checkin cal cfg u g
        (load_user_checkin_data u stored) now).1 = false := by
      rw [can_user_checkin_fst, hany]
      simp
    exact ⟨hfalse, by simp [fupan_checkin, hfalse], by simp [fupan_checkin, hfalse]⟩
  · intro hnodup
    cases hcan : (can_user_checkin cal cfg u g
        (load_user_checkin_data u stored) now).1 with
    | false => simpa [fupan_checkin, hcan] using hnodup
    | true =>
      have hsucc : (fupan_checkin cal cfg u g nick concl now stored).2.1 = true := by
        simp [fupan_checkin, hcan]
      obtain ⟨-, hshape⟩ := fupan_checkin_success_shape cal cfg u g nick concl now
        stored hsucc
      rw [hshape]
      have hany := (can_user_checkin_true_shape cal cfg u g
        (load_user_checkin_data u stored) now hcan).2
      have hnotmem : now.day ∉
          (load_user_checkin_data u stored).checkins.map (·.date) := by
        intro hmem
        obtain ⟨c, hc, he⟩ := List.mem_map.mp hmem
        have hx : (load_user_checkin_data u stored).checkins.any
            (fun c => c.date == now.day) = true := by
          rw [List.any_eq_true]
          refine ⟨c, hc, ?_⟩
          simpa using he
        rw [hany] at hx
        cases hx
      simp only [List.map_append, List.map_cons, List.map_nil]
      rw [List.nodup_append]
      refine ⟨hnodup, List.nodup_singleton _, ?_⟩
      intro a ha hb
      have : a = now.day := by
        simpa [buildCheckinRecord] using hb
      exact hnotmem (this ▸ ha)

theorem checkin_per_date_dedup_witness :
    (can_user_checkin demoCal demoCfg "u" none
        (load_user_checkin_data "u" (some demoLedgerStored)) ⟨3, 970⟩).1 = false ∧
    (fupan_checkin demoCal demoCfg "u" none "nick" "" ⟨3, 970⟩
        (some demoLedgerStored)).1 =
      load_user_checkin_data "u" (some demoLedgerStored) ∧
    (fupan_checkin demoCal demoCfg "u" none "nick" "" ⟨3, 970⟩
        (some demoLedgerStored)).2.1 = false ∧
    ((fupan_checkin demoCal demoCfg "u" none "nick" "" ⟨4, 960⟩
        (some demoLedgerStored)).1.checkins.map (·.date)).Nodup := by
  have h1 := (checkin_per_date_dedup demoCal demoCfg "u" none "nick" ""
    ⟨3, 970⟩ (some demoLedgerStored)).1 ⟨demoMon, by decide, by decide⟩
  have h2 := (checkin_per_date_dedup demoCal demoCfg "u" none "nick" ""
    ⟨4, 960⟩ (some demoLedgerStored)).2 (by decide)
  exact ⟨h1.1, h1.2.1, h1.2.2, h2⟩

theorem strikeWalk_consecutive (rest : List Int) :
    ∀ d acc : Int, 0 < acc →
      List.Chain' (fun a b : Int => a - b = 1) (d :: rest) →
      strikeWalk d acc rest = acc + rest.length := by
  induction rest with
  | nil => intro d acc hacc hch; simp [strikeWalk]
  | cons e es ih =>
    intro d acc hacc hch
    rw [List.chain'_cons] at hch
    obtain ⟨hde, hrest⟩ := hch
    simp only [strikeWalk]
    rw [if_pos (Or.inr hde), ih e (acc + 1) (by omega) hrest]
    simp only [List.length_cons]
    push_cast
    omega

theorem incrementalStrikeAux_consecutive (rs : List CheckinRecord) :
    ∀ (p : CheckinRecord) (s : Int),
      List.Chain' (fun a b : CheckinRecord =>
        a.next_trading_day = some b.trading_day ∧
          b.trading_day = a.trading_day + 1) (p :: rs) →
      incrementalStrikeAux (some p) s rs = s + rs.length := by
  induction rs with
  | nil => intro p s h; simp [incrementalStrikeAux]
  | cons r rs' ih =>
    intro p s h
    rw [List.chain'_cons] at h
    obtain ⟨⟨hnext, hstep⟩, hrest⟩ := h
    simp only [incrementalStrikeAux]
    have hstepval : incrementalStrikeStep (some p) s r = s + 1 := by
      have hne : ¬ r.trading_day = p.trading_day := by omega
      simp [incrementalStrikeStep, hne, hnext]
    rw [hstepval, ih r (s + 1) hrest]
    simp only [List.length_cons]
    push_cast
    omega

theorem insertAsc_of_forall_le (x : Int) (l : List Int) (h : ∀ y ∈ l, x ≤ y) :
    insertAsc x l = x :: l := by
  cases l with
  | nil => rfl
  | cons y ys =>
    simp only [insertAsc]
    rw [if_pos (h y (List.mem_cons_self y ys))]

theorem sortAsc_of_pairwise (l : List Int) (h : l.Pairwise (· ≤ ·)) :
    sortAsc l = l := by
  induction l with
  | nil => rfl
  | cons x xs ih =>
    rw [List.pairwise_cons] at h
    simp only [sortAsc, ih h.2]
    exact insertAsc_of_forall_le x xs h.1

theorem calc_simple_of_consecutive (r : CheckinRecord) (rs : List CheckinRecord)
    (h : List.Chain' (fun a b : Int => b = a + 1)
      ((r :: rs).map (·.trading_day))) :
    calculate_simple_strike_count (r :: rs) = (((r :: rs).length : Nat) : Int) := by
  have hlt : List.Chain' (· < ·) ((r :: rs).map (·.trading_day)) :=
    h.imp (fun a b hab => by omega)
  have hpw : ((r :: rs).map (·.trading_day)).Pairwise (· < ·) :=
    List.chain'_iff_pairwise.mp hlt
  have hnodup : ((r :: rs).map (·.trading_day)).Nodup :=
    hpw.imp (fun hab => ne_of_lt hab)
  have hdedup : ((r :: rs).map (·.trading_day)).dedup =
      (r :: rs).map (·.trading_day) := List.dedup_eq_self.mpr hnodup
  have hsort : sortAsc ((r :: rs).map (·.trading_day)) =
      (r :: rs).map (·.trading_day) :=
    sortAsc_of_pairwise _ (hpw.imp (fun hab => le_of_lt hab))
  have hrevchain : List.Chain' (fun a b : Int => a - b = 1)
      (((r :: rs).map (·.trading_day)).reverse) := by
    rw [List.chain'_reverse]
    refine h.imp (fun a b hab => ?_)
    show b - a = 1
    omega
  have hrevne : (((r :: rs).map (·.trading_day)).reverse) ≠ [] := by simp
  obtain ⟨d, rest, hrev⟩ := List.exists_cons_of_ne_nil hrevne
  have hlen : rest.length + 1 = (r :: rs).length := by
    have h1 : ((((r :: rs).map (·.trading_day)).reverse)).length =
        (((r :: rs).map (·.trading_day))).length := List.length_reverse _
    rw [hrev] at h1
    simpa using h1
  have hwalkchain : List.Chain' (fun a b : Int => a - b = 1) (d :: rest) := by
    rw [← hrev]
    exact hrevchain
  have hne2 : ¬ (((r :: rs).map (·.trading_day)).isEmpty = true) := by simp
  simp only [calculate_simple_strike_count, List.isEmpty_cons, Bool.false_eq_true,
    if_false]
  rw [hdedup, if_neg hne2, hsort, hrev]
  show strikeWalk d 0 (d :: rest) = (((r :: rs).length : Nat) : Int)
  simp only [strikeWalk]
  rw [if_pos (Or.inl (by trivial)), show (0 : Int) + 1 = 1 from by norm_num,
    strikeWalk_consecutive rest d 1 (by omega) hwalkchain]
  omega

/-- C1 (amended): the incremental streak update applied check-in by
check-in and the from-scratch recompute agree — both equal the number
of check-ins — whenever every successive pair of check-ins is
session-adjacent with trading days exactly one calendar day apart; in
general the two algorithms disagree across longer non-trading gaps
(see the counterexample). -/
theorem strike_algorithms_agree_consecutive (l : List CheckinRecord)
    (h : List.Chain' (fun a b : CheckinRecord =>
      a.next_trading_day = some b.trading_day ∧
        b.trading_day = a.trading_day + 1) l) :
    incrementalStrike l = calculate_simple_strike_count l ∧
    incrementalStrike l = ((l.length : Nat) : Int) := by
  cases l with
  | nil => exact ⟨by decide, by decide⟩
  | cons r rs =>
    have hstart : incrementalStrike (r :: rs) =
        incrementalStrikeAux (some r) 1 rs := by
      simp [incrementalStrike, incrementalStrikeAux, incrementalStrikeStep]
    have hlen : incrementalStrike (r :: rs) = (((r :: rs).length : Nat) : Int) := by
      rw [hstart, incrementalStrikeAux_consecutive rs r 1 h]
      simp only [List.length_cons]
      push_cast
      omega
    have hdays : List.Chain' (fun a b : Int => b = a + 1)
        ((r :: rs).map (·.trading_day)) := by
      rw [List.chain'_map]
      exact h.imp (fun a b hab => hab.2)
    exact ⟨by rw [hlen, calc_simple_of_consecutive r rs hdays], hlen⟩

/-- C1 counterexample: a Friday check-in followed by the Monday
check-in (consecutive sessions across a weekend).  The incremental
update, applied check-in by check-in through `fupan_checkin`, yields
strike count 2, while `calculate_simple_strike_count` over the same
check-ins yields 1 because the two trading days are 3 calendar days
apart: the two algorithms do not produce the same result. -/
theorem strike_algorithms_disagree_cex :
    demoCheckinMonday.1.checkins = demoWeekendHistory ∧
    demoCheckinMonday.1.strike_count = 2 ∧
    incrementalStrike demoCheckinMonday.1.checkins = 2 ∧
    calculate_simple_strike_count demoCheckinMonday.1.checkins = 1 ∧
    incrementalStrike demoCheckinMonday.1.checkins ≠
      calculate_simple_strike_count demoCheckinMonday.1.checkins := by
  decide

theorem strike_algorithms_agree_consecutive_witness :
    incrementalStrike demoConsecutiveHistory =
      calculate_simple_strike_count demoConsecutiveHistory ∧
    incrementalStrike demoConsecutiveHistory = 2 := by
  have T := strike_algorithms_agree_consecutive demoConsecutiveHistory
    (List.chain'_cons.mpr ⟨⟨by decide, by decide⟩, List.chain'_singleton _⟩)
  exact ⟨T.1, by simpa using T.2⟩

theorem fupan_revoke_snoc (u : String) (d : StoredData)
    (xs : List CheckinRecord) (r : CheckinRecord)
    (hd : d.checkins = xs ++ [r]) :
    (fupan_revoke u (some d)).1.checkins = xs ∧
    (fupan_revoke u (some d)).1.total_count = (xs.length : Int) ∧
    (fupan_revoke u (some d)).1.strike_count =
      calculate_simple_strike_count xs ∧
    (fupan_revoke u (some d)).2.1 = true := by
  have hlast : (load_user_checkin_data u (some d)).checkins.getLast? = some r := by
    simp [load_user_checkin_data, hd]
  simp only [fupan_revoke, hlast]
  have hdrop : (load_user_checkin_data u (some d)).checkins.dropLast = xs := by
    simp [load_user_checkin_data, hd]
  rw [hdrop]
  refine ⟨by trivial, by trivial, ?_, by trivial⟩
  cases xs with
  | nil => simp [calculate_simple_strike_count]
  | cons x xs' => simp

/-- C3 (amended): after a successful check-in followed by a revoke,
`total_count` and the `checkins` sequence return to their pre-check-in
values (given the §3 invariant that `total_count` equals the length of
`checkins`); `strike_count`, however, is set to the from-scratch
recompute over the pre-check-in history, which coincides with the
pre-check-in cached value exactly when that cached value equals the
recompute — across multi-day non-trading gaps it can differ, so revoke
is not a left inverse of check-in for `strike_count`. -/
theorem revoke_after_checkin (cal : Calendar) (cfg : PluginConfig) (u : String)
    (g : Option String) (nick concl : String) (now : DateTime)
    (stored : Option StoredData)
    (hsucc : (fupan_checkin cal cfg u g nick concl now stored).2.1 = true)
    (htot : (load_user_checkin_data u stored).total_count =
      ((load_user_checkin_data u stored).checkins.length : Int)) :
    (fupan_revoke u (some (save_user_checkin_data
        (fupan_checkin cal cfg u g nick concl now stored).1))).1.checkins =
      (load_user_checkin_data u stored).checkins ∧
    (fupan_revoke u (some (save_user_checkin_data
        (fupan_checkin cal cfg u g nick concl now stored).1))).1.total_count =
      (load_user_checkin_data u stored).total_count ∧
    (fupan_revoke u (some (save_user_checkin_data
        (fupan_checkin cal cfg u g nick concl now stored).1))).1.strike_count =
      calculate_simple_strike_count (load_user_checkin_data u stored).checkins ∧
    ((load_user_checkin_data u stored).strike_count =
        calculate_simple_strike_count (load_user_checkin_data u stored).checkins →
      (fupan_revoke u (some (save_user_checkin_data
          (fupan_checkin cal cfg u g nick concl now stored).1))).1.strike_count =
        (load_user_checkin_data u stored).strike_count) := by
  obtain ⟨-, hshape⟩ := fupan_checkin_success_shape cal cfg u g nick concl now
    stored hsucc
  have hd : (save_user_checkin_data
      (fupan_checkin cal cfg u g nick concl now stored).1).checkins =
      (load_user_checkin_data u stored).checkins ++
        [buildCheckinRecord cal g concl now] := by
    rw [hshape]
    rfl
  obtain ⟨h1, h2, h3, -⟩ := fupan_revoke_snoc u _ _ _ hd
  exact ⟨h1, by rw [h2, htot], h3, fun hc => by rw [h3, hc]⟩

/-- C3 counterexample: starting from the saved Friday+Monday ledger
(cached strike count 2), a successful Tuesday check-in followed by a
revoke leaves `strike_count` at the from-scratch recompute 1, not the
pre-check-in value 2: revoke is not a left inverse of check-in for
`strike_count`. -/
theorem revoke_not_left_inverse_cex :
    (fupan_checkin demoCal demoCfg "u" none "nick" "" ⟨4, 960⟩
        (some demoLedgerStored)).2.1 = true ∧
    (load_user_checkin_data "u" (some demoLedgerStored)).strike_count = 2 ∧
    (fupan_revoke "u" (some (save_user_checkin_data
        (fupan_checkin demoCal demoCfg "u" none "nick" "" ⟨4, 960⟩
          (some demoLedgerStored)).1))).1.strike_count = 1 ∧
    (fupan_revoke "u" (some (save_user_checkin_data
        (fupan_checkin demoCal demoCfg "u" none "nick" "" ⟨4, 960⟩
          (some demoLedgerStored)).1))).1.strike_count ≠
      (load_user_checkin_data "u" (some demoLedgerStored)).strike_count := by
  decide

theorem revoke_after_checkin_witness :
    (fupan_revoke "u" (some (save_user_checkin_data
        (fupan_checkin demoCal demoCfg "u" none "nick" "" ⟨0, 960⟩
          none).1))).1.total_count =
      (load_user_checkin_data "u" none).total_count ∧
    (fupan_revoke "u" (some (save_user_checkin_data
        (fupan_checkin demoCal demoCfg "u" none "nick" "" ⟨0, 960⟩
          none).1))).1.strike_count =
      (load_user_checkin_data "u" none).strike_count := by
  have T := revoke_after_checkin demoCal demoCfg "u" none "nick" "" ⟨0, 960⟩ none
    (by decide) (by decide)
  exact ⟨T.2.1, T.2.2.2 (by decide)⟩

end Fupan
